import Mathlib

/-!
Verification of `crates/emath/src/ts_transform.rs`: the `TSTransform` type,
a 2D affine transform (uniform scale, rotation, translation) stored as a
`glam::Affine2` (a 2x2 matrix plus a translation vector).

`f32` components are modelled as real numbers.  The relevant `glam`
operations (`Affine2::from_scale_angle_translation`, `inverse`,
`to_scale_angle_translation`, matrix multiplication, `atan2`, vector
`length`, `signum`) are embedded from the glam library's formulas, with
`atan2 y x` given its standard real-valued semantics as the argument of the
complex number `x + y*I` (range `(-pi, pi]`, `atan2 0 0 = 0`).
-/

open Real

namespace Glam

/-- glam's `Vec2`: a pair of `f32` coordinates, modelled over the reals. -/
structure Vec2 where
  x : ℝ
  y : ℝ

namespace Vec2

@[ext] theorem ext_glam_vec2 {a b : Vec2} (hx : a.x = b.x) (hy : a.y = b.y) : a = b := by
  cases a; cases b; simp_all

/-- `Vec2::ZERO`. -/
def ZERO : Vec2 := ⟨0, 0⟩

instance : Add Vec2 := ⟨fun a b => ⟨a.x + b.x, a.y + b.y⟩⟩

instance : Neg Vec2 := ⟨fun a => ⟨-a.x, -a.y⟩⟩

@[simp] theorem add_x (a b : Vec2) : (a + b).x = a.x + b.x := rfl

@[simp] theorem add_y (a b : Vec2) : (a + b).y = a.y + b.y := rfl

@[simp] theorem neg_x (a : Vec2) : (-a).x = -a.x := rfl

@[simp] theorem neg_y (a : Vec2) : (-a).y = -a.y := rfl

@[simp] theorem add_mk (a b c d : ℝ) :
    Vec2.mk a b + Vec2.mk c d = ⟨a + c, b + d⟩ := rfl

@[simp] theorem neg_mk (a b : ℝ) : -(Vec2.mk a b) = ⟨-a, -b⟩ := rfl

/-- glam `Vec2::length`: `sqrt(self.dot(self))` with `dot = x*x + y*y`. -/
noncomputable def length (v : Vec2) : ℝ := Real.sqrt (v.x * v.x + v.y * v.y)

end Vec2

/-- Rust `f32::signum`: `1.0` for non-negative values (including `+0.0`),
`-1.0` for negative values (NaN is outside the real-number model). -/
noncomputable def signum (v : ℝ) : ℝ := if v < 0 then -1 else 1

/-- `atan2 y x` as used by glam's decomposition: the angle in `(-pi, pi]` of
the point `(x, y)`, i.e. the complex argument of `x + y*I`; `atan2 0 0 = 0`. -/
noncomputable def atan2 (y x : ℝ) : ℝ := Complex.arg ⟨x, y⟩

/-- glam's `Mat2`, a column-major 2x2 matrix: columns `x_axis`, `y_axis`. -/
structure Mat2 where
  x_axis : Vec2
  y_axis : Vec2

namespace Mat2

@[ext] theorem ext_cols {a b : Mat2} (hx : a.x_axis = b.x_axis)
    (hy : a.y_axis = b.y_axis) : a = b := by
  cases a; cases b; simp_all

/-- `Mat2::from_cols`. -/
def from_cols (x_axis y_axis : Vec2) : Mat2 := ⟨x_axis, y_axis⟩

/-- `Mat2::IDENTITY`. -/
def IDENTITY : Mat2 := ⟨⟨1, 0⟩, ⟨0, 1⟩⟩

/-- `Mat2::from_angle`: counter-clockwise rotation by `angle` (radians). -/
noncomputable def from_angle (angle : ℝ) : Mat2 :=
  ⟨⟨Real.cos angle, Real.sin angle⟩, ⟨-Real.sin angle, Real.cos angle⟩⟩

/-- `Mat2::determinant`. -/
def determinant (m : Mat2) : ℝ :=
  m.x_axis.x * m.y_axis.y - m.x_axis.y * m.y_axis.x

/-- `Mat2::mul_vec2`: matrix-vector product. -/
def mul_vec2 (m : Mat2) (rhs : Vec2) : Vec2 :=
  ⟨m.x_axis.x * rhs.x + m.y_axis.x * rhs.y,
   m.x_axis.y * rhs.x + m.y_axis.y * rhs.y⟩

/-- `Mat2::mul` (matrix product): `from_cols(self * rhs.x_axis, self * rhs.y_axis)`. -/
def mul_mat2 (m rhs : Mat2) : Mat2 :=
  from_cols (m.mul_vec2 rhs.x_axis) (m.mul_vec2 rhs.y_axis)

/-- `Mat2::inverse`: adjugate over determinant, via `inv_det = det.recip()`.
In the real-number model `recip 0 = 0` stands in for the IEEE infinity. -/
noncomputable def inverse (m : Mat2) : Mat2 :=
  let inv_det := (m.determinant)⁻¹
  from_cols
    ⟨m.y_axis.y * inv_det, m.x_axis.y * -inv_det⟩
    ⟨m.y_axis.x * -inv_det, m.x_axis.x * inv_det⟩

end Mat2

/-- glam's `Affine2`: a 2x2 linear part and a translation vector. -/
structure Affine2 where
  matrix2 : Mat2
  translation : Vec2

namespace Affine2

@[ext] theorem ext_parts {a b : Affine2} (hm : a.matrix2 = b.matrix2)
    (ht : a.translation = b.translation) : a = b := by
  cases a; cases b; simp_all

/-- `Affine2::IDENTITY`. -/
def IDENTITY : Affine2 := ⟨Mat2.IDENTITY, Vec2.ZERO⟩

/-- `Affine2::from_scale_angle_translation`:
`matrix2 = [[cos*sx, sin*sx], [-sin*sy, cos*sy]]` (columns), translation kept. -/
noncomputable def from_scale_angle_translation
    (scale : Vec2) (angle : ℝ) (translation : Vec2) : Affine2 :=
  ⟨Mat2.from_cols
     ⟨Real.cos angle * scale.x, Real.sin angle * scale.x⟩
     ⟨-Real.sin angle * scale.y, Real.cos angle * scale.y⟩,
   translation⟩

/-- `Affine2::from_angle`. -/
noncomputable def from_angle (angle : ℝ) : Affine2 :=
  ⟨Mat2.from_angle angle, Vec2.ZERO⟩

/-- `Affine2::from_translation`. -/
def from_translation (translation : Vec2) : Affine2 :=
  ⟨Mat2.IDENTITY, translation⟩

/-- `Affine2::transform_point2`: `matrix2 * p + translation`. -/
def transform_point2 (a : Affine2) (rhs : Vec2) : Vec2 :=
  a.matrix2.mul_vec2 rhs + a.translation

/-- `Affine2::inverse`: invert the matrix, then transform the negative
translation by the inverted matrix. -/
noncomputable def inverse (a : Affine2) : Affine2 :=
  let matrix2 := a.matrix2.inverse
  let translation := -(matrix2.mul_vec2 a.translation)
  ⟨matrix2, translation⟩

/-- `Affine2::to_scale_angle_translation`:
`scale = (|x_axis| * signum det, |y_axis|)`, `angle = atan2(-y_axis.x, y_axis.y)`. -/
noncomputable def to_scale_angle_translation (a : Affine2) : Vec2 × ℝ × Vec2 :=
  let det := a.matrix2.determinant
  (⟨a.matrix2.x_axis.length * signum det, a.matrix2.y_axis.length⟩,
   atan2 (-a.matrix2.y_axis.x) a.matrix2.y_axis.y,
   a.translation)

/-- `Affine2::mul`: `matrix2 = self.matrix2 * rhs.matrix2`,
`translation = self.matrix2 * rhs.translation + self.translation`. -/
def mul (a rhs : Affine2) : Affine2 :=
  ⟨a.matrix2.mul_mat2 rhs.matrix2,
   a.matrix2.mul_vec2 rhs.translation + a.translation⟩

end Affine2

end Glam

namespace Emath

/-- emath's `Pos2`: a 2D point. -/
structure Pos2 where
  x : ℝ
  y : ℝ

@[ext] theorem Pos2.ext_pos2 {a b : Pos2} (hx : a.x = b.x) (hy : a.y = b.y) : a = b := by
  cases a; cases b; simp_all

/-- emath's `pos2` helper. -/
def pos2 (x y : ℝ) : Pos2 := ⟨x, y⟩

/-- emath's `Vec2`: a 2D displacement vector. -/
structure Vec2 where
  x : ℝ
  y : ℝ

@[ext] theorem Vec2.ext_emath_vec2 {a b : Vec2} (hx : a.x = b.x) (hy : a.y = b.y) : a = b := by
  cases a; cases b; simp_all

/-- emath's `vec2` helper. -/
def vec2 (x y : ℝ) : Vec2 := ⟨x, y⟩

/-- `Vec2::ZERO`. -/
def Vec2.ZERO : Vec2 := ⟨0, 0⟩

/-- `f32 * Pos2` (componentwise scaling of a point). -/
instance : HMul ℝ Pos2 Pos2 := ⟨fun k p => ⟨k * p.x, k * p.y⟩⟩

/-- `Pos2 + Vec2` (translating a point by a vector). -/
instance : HAdd Pos2 Vec2 Pos2 := ⟨fun p v => ⟨p.x + v.x, p.y + v.y⟩⟩

@[simp] theorem smul_pos2_x (k : ℝ) (p : Pos2) : (k * p).x = k * p.x := rfl

@[simp] theorem smul_pos2_y (k : ℝ) (p : Pos2) : (k * p).y = k * p.y := rfl

@[simp] theorem add_pos2_vec2_x (p : Pos2) (v : Vec2) : (p + v).x = p.x + v.x := rfl

@[simp] theorem add_pos2_vec2_y (p : Pos2) (v : Vec2) : (p + v).y = p.y + v.y := rfl

@[simp] theorem smul_pos2_mk (k a b : ℝ) : k * (Pos2.mk a b) = ⟨k * a, k * b⟩ := rfl

@[simp] theorem add_pos2_vec2_mk (a b c d : ℝ) :
    (Pos2.mk a b) + (Vec2.mk c d) = ⟨a + c, b + d⟩ := rfl

/-- emath's `Rect`: an axis-aligned rectangle given by min/max corners. -/
structure Rect where
  min : Pos2
  max : Pos2

@[ext] theorem Rect.ext_minmax {a b : Rect} (hmin : a.min = b.min)
    (hmax : a.max = b.max) : a = b := by
  cases a; cases b; simp_all

/-- `TSTransform`: newtype over `glam::Affine2`
(`pub struct TSTransform(pub glam::Affine2);`). -/
structure TSTransform where
  af : Glam.Affine2

namespace TSTransform

@[ext] theorem ext_af {a b : TSTransform} (h : a.af = b.af) : a = b := by
  cases a; cases b; simp_all

/-- `TSTransform::IDENTITY`. -/
def IDENTITY : TSTransform := ⟨Glam.Affine2.IDENTITY⟩

/-- `TSTransform::default` is `IDENTITY`. -/
def default : TSTransform := IDENTITY

/-- `TSTransform::new(translation, scaling, rotation)`. -/
noncomputable def new (translation : Vec2) (scaling rotation : ℝ) : TSTransform :=
  ⟨Glam.Affine2.from_scale_angle_translation
     ⟨scaling, scaling⟩ rotation ⟨translation.x, translation.y⟩⟩

/-- `TSTransform::from_translation`. -/
def from_translation (translation : Vec2) : TSTransform :=
  ⟨Glam.Affine2.from_translation ⟨translation.x, translation.y⟩⟩

/-- `TSTransform::from_scaling`. -/
noncomputable def from_scaling (scaling : ℝ) : TSTransform :=
  new Vec2.ZERO scaling 0

/-- `TSTransform::from_rotation`. -/
noncomputable def from_rotation (rotation : ℝ) : TSTransform :=
  new Vec2.ZERO 1 rotation

/-- `TSTransform::inverse`. -/
noncomputable def inverse (t : TSTransform) : TSTransform :=
  ⟨t.af.inverse⟩

/-- `TSTransform::mul_pos`: transform a point. -/
def mul_pos (t : TSTransform) (pos : Pos2) : Pos2 :=
  let p := t.af.transform_point2 ⟨pos.x, pos.y⟩
  pos2 p.x p.y

/-- `TSTransform::mul_rect`: decompose, factor out the rotation by
left-multiplying with `from_angle(-angle)`, apply the residual
scale+translation to the min/max corners, and return the extracted angle. -/
noncomputable def mul_rect (t : TSTransform) (rect : Rect) : Rect × ℝ :=
  let d1 := t.af.to_scale_angle_translation
  let angle := d1.2.1
  let d2 := ((Glam.Affine2.from_angle (-angle)).mul t.af).to_scale_angle_translation
  let scale := d2.1
  let translation := d2.2.2
  (⟨scale.x * rect.min + vec2 translation.x translation.y,
    scale.x * rect.max + vec2 translation.x translation.y⟩,
   angle)

/-- `TSTransform::scale_angle_translation`. -/
noncomputable def scale_angle_translation (t : TSTransform) : ℝ × ℝ × Vec2 :=
  let d := t.af.to_scale_angle_translation
  (d.1.x, d.2.1, vec2 d.2.2.x d.2.2.y)

/-- `TSTransform::scaling`. -/
noncomputable def scaling (t : TSTransform) : ℝ :=
  t.scale_angle_translation.1

/-- `impl Mul<Self> for TSTransform`: apply `rhs` first, then `self`. -/
def compose (a rhs : TSTransform) : TSTransform :=
  ⟨a.af.mul rhs.af⟩

end TSTransform

end Emath

namespace Emath

open TSTransform

/-- C2: composition order law with exact equality: for every pair of
transforms `A`, `B` and every point `p`,
`compose(A,B).map_point(p) = A.map_point(B.map_point(p))`, where
`compose(A,B)` applies `B` first and `A` second. -/
theorem C2_compose_order_exact (A B : TSTransform) (p : Pos2) :
    (A.compose B).mul_pos p = A.mul_pos (B.mul_pos p) := by
  ext <;>
    simp [TSTransform.compose, TSTransform.mul_pos, Glam.Affine2.mul,
      Glam.Affine2.transform_point2, Glam.Mat2.mul_mat2, Glam.Mat2.mul_vec2,
      Glam.Mat2.from_cols, pos2] <;>
    ring

/-- C6: concrete forward and inverse point mapping for
`T = new((2,3), 2, 0)`: `T` maps `(0,0)` to `(2,3)` and `(5,1)` to `(12,5)`,
and `T.inverse()` maps `(2,3)` to `(0,0)` and `(12,5)` to `(5,1)`. -/
theorem C6_concrete_point_mapping :
    (TSTransform.new (vec2 2 3) 2 0).mul_pos (pos2 0 0) = pos2 2 3 ∧
    (TSTransform.new (vec2 2 3) 2 0).mul_pos (pos2 5 1) = pos2 12 5 ∧
    (TSTransform.new (vec2 2 3) 2 0).inverse.mul_pos (pos2 2 3) = pos2 0 0 ∧
    (TSTransform.new (vec2 2 3) 2 0).inverse.mul_pos (pos2 12 5) = pos2 5 1 := by
  refine ⟨?_, ?_, ?_, ?_⟩ <;>
    · ext <;>
        simp [TSTransform.new, TSTransform.inverse, TSTransform.mul_pos,
          Glam.Affine2.from_scale_angle_translation, Glam.Affine2.inverse,
          Glam.Affine2.transform_point2, Glam.Mat2.inverse, Glam.Mat2.from_cols,
          Glam.Mat2.determinant, Glam.Mat2.mul_vec2, pos2, vec2] <;>
        norm_num

/-- C7: concrete composition: with `T1 = new((1,0), 2, 0)` and
`T2 = new((-1,-1), 3, 0)`, `T2 * T1 = new((2,-1), 6, 0)` exactly. -/
theorem C7_concrete_composition :
    (TSTransform.new (vec2 (-1) (-1)) 3 0).compose (TSTransform.new (vec2 1 0) 2 0) =
      TSTransform.new (vec2 2 (-1)) 6 0 := by
  ext <;>
    simp [TSTransform.new, TSTransform.compose, Glam.Affine2.mul,
      Glam.Affine2.from_scale_angle_translation, Glam.Mat2.mul_mat2,
      Glam.Mat2.mul_vec2, Glam.Mat2.from_cols, vec2] <;>
    norm_num

/-- C8: identity element laws: `IDENTITY.map_point(p) = p` for every point
`p`, and `IDENTITY` is a two-sided identity for composition. -/
theorem C8_identity_laws :
    (∀ p : Pos2, TSTransform.IDENTITY.mul_pos p = p) ∧
    (∀ T : TSTransform, T.compose TSTransform.IDENTITY = T ∧
      TSTransform.IDENTITY.compose T = T) := by
  constructor
  · intro p
    ext <;>
      simp [TSTransform.IDENTITY, TSTransform.mul_pos, Glam.Affine2.IDENTITY,
        Glam.Affine2.transform_point2, Glam.Mat2.IDENTITY, Glam.Mat2.mul_vec2,
        Glam.Vec2.ZERO, pos2]
  · intro T
    constructor <;>
      · ext <;>
          simp [TSTransform.IDENTITY, TSTransform.compose, Glam.Affine2.IDENTITY,
            Glam.Affine2.mul, Glam.Mat2.IDENTITY, Glam.Mat2.mul_mat2,
            Glam.Mat2.mul_vec2, Glam.Mat2.from_cols, Glam.Vec2.ZERO]

end Emath

namespace Emath

/-- `atan2 0 x = 0` when `0 <= x`: the argument of a non-negative real. -/
theorem atan2_zero_nonneg {x : ℝ} (hx : 0 ≤ x) : Glam.atan2 0 x = 0 :=
  Complex.arg_eq_zero_iff.mpr ⟨hx, rfl⟩

/-- Length of a vector lying on the positive x-axis. -/
theorem length_x_nonneg {a : ℝ} (ha : 0 ≤ a) : Glam.Vec2.length ⟨a, 0⟩ = a := by
  simp [Glam.Vec2.length, Real.sqrt_mul_self ha]

/-- `signum` of a non-negative real is `1`. -/
theorem signum_of_nonneg {x : ℝ} (hx : 0 ≤ x) : Glam.signum x = 1 :=
  if_neg (not_lt.mpr hx)

/-- C1: concrete `map_rect`: for `T = new((1,0), 3, 0)` and
`rect = Rect((5,5), (15,10))`, the algorithm (decompose, undo the rotation on
the left, apply the residual scale+translation to the min/max corners)
returns the rectangle `min = (16,15)`, `max = (46,30)` and angle `0`. -/
theorem C1_map_rect_concrete :
    (TSTransform.new (vec2 1 0) 3 0).mul_rect ⟨pos2 5 5, pos2 15 10⟩ =
      (⟨pos2 16 15, pos2 46 30⟩, (0 : ℝ)) := by
  have hatan : Glam.atan2 0 3 = 0 := atan2_zero_nonneg (by norm_num)
  have hlen : Glam.Vec2.length ⟨3, 0⟩ = 3 := length_x_nonneg (by norm_num)
  have hsig : Glam.signum 9 = 1 := signum_of_nonneg (by norm_num)
  norm_num [TSTransform.new, TSTransform.mul_rect,
    Glam.Affine2.from_scale_angle_translation, Glam.Affine2.to_scale_angle_translation,
    Glam.Affine2.from_angle, Glam.Affine2.mul, Glam.Mat2.from_angle,
    Glam.Mat2.from_cols, Glam.Mat2.mul_mat2, Glam.Mat2.mul_vec2,
    Glam.Mat2.determinant, Glam.Vec2.ZERO, pos2, vec2, hatan, hlen, hsig]

end Emath

namespace Emath

/-- The angle recovered by `atan2` from a positively scaled rotation:
for `0 < s` and `r` in `(-pi, pi]`, `atan2(s*sin r, s*cos r) = r`. -/
theorem atan2_sin_cos_scaled {s r : ℝ} (hs : 0 < s) (hr1 : -π < r) (hr2 : r ≤ π) :
    Glam.atan2 (Real.sin r * s) (Real.cos r * s) = r := by
  have h : (⟨Real.cos r * s, Real.sin r * s⟩ : ℂ) =
      (s : ℂ) * (Complex.cos r + Complex.sin r * Complex.I) := by
    apply Complex.ext <;>
      simp [Complex.cos_ofReal_re, Complex.sin_ofReal_re, mul_comm]
  rw [Glam.atan2, h, Complex.arg_mul_cos_add_sin_mul_I hs ⟨hr1, hr2⟩]

/-- The squared norm of the first matrix column of `new(t, s, r)` is `s^2`. -/
theorem col_sq_norm (s r : ℝ) :
    Real.cos r * s * (Real.cos r * s) + Real.sin r * s * (Real.sin r * s) = s ^ 2 := by
  have h := Real.sin_sq_add_cos_sq r
  nlinarith [h]

/-- C3 (amended): decomposition round-trip holds for `new(translation, scale,
rotation)` when `scale > 0` and `rotation` lies in `(-pi, pi]`, exactly in
the real-number model; negative scale or out-of-range rotation is re-encoded
by the decomposition (see the counterexample). -/
theorem C3_decomposition_roundtrip (t : Vec2) (s r : ℝ) (hs : 0 < s)
    (hr1 : -π < r) (hr2 : r ≤ π) :
    (TSTransform.new t s r).scale_angle_translation = (s, r, t) := by
  have hlen : Glam.Vec2.length ⟨Real.cos r * s, Real.sin r * s⟩ = s := by
    rw [Glam.Vec2.length]
    show Real.sqrt (Real.cos r * s * (Real.cos r * s) + Real.sin r * s * (Real.sin r * s)) = s
    rw [col_sq_norm, Real.sqrt_sq hs.le]
  have hsig : Glam.signum (Real.cos r * s * (Real.cos r * s)
      + Real.sin r * s * (Real.sin r * s)) = 1 := by
    rw [col_sq_norm]
    exact signum_of_nonneg (sq_nonneg s)
  have hangle : Glam.atan2 (Real.sin r * s) (Real.cos r * s) = r :=
    atan2_sin_cos_scaled hs hr1 hr2
  simp [TSTransform.new, TSTransform.scale_angle_translation,
    Glam.Affine2.from_scale_angle_translation, Glam.Affine2.to_scale_angle_translation,
    Glam.Mat2.from_cols, Glam.Mat2.determinant, hlen, hsig, hangle, vec2]

/-- Witness for C3 (amended): the round-trip at `t = (1,2)`, `s = 2`, `r = 0`. -/
theorem C3_decomposition_roundtrip_witness :
    (0 : ℝ) < 2 ∧ -π < (0 : ℝ) ∧ (0 : ℝ) ≤ π ∧
    (TSTransform.new (vec2 1 2) 2 0).scale_angle_translation = (2, 0, vec2 1 2) := by
  have h1 : (0 : ℝ) < 2 := by norm_num
  have h2 : -π < (0 : ℝ) := neg_lt_zero.mpr Real.pi_pos
  have h3 : (0 : ℝ) ≤ π := Real.pi_pos.le
  exact ⟨h1, h2, h3, C3_decomposition_roundtrip (vec2 1 2) 2 0 h1 h2 h3⟩

/-- C3 counterexample: for `T = new((0,0), -1, 0)` the decomposition does
NOT return `(-1, 0, (0,0))`: the determinant of the linear part is positive,
so the returned scale is `+1` (with angle `pi`), not `-1`. -/
theorem C3_decomposition_counterexample :
    (TSTransform.new (vec2 0 0) (-1) 0).scale_angle_translation ≠
      ((-1 : ℝ), (0 : ℝ), vec2 0 0) := by
  have h1 : (TSTransform.new (vec2 0 0) (-1) 0).scale_angle_translation.1 = 1 := by
    norm_num [TSTransform.new, TSTransform.scale_angle_translation,
      Glam.Affine2.from_scale_angle_translation, Glam.Affine2.to_scale_angle_translation,
      Glam.Mat2.from_cols, Glam.Mat2.determinant, Glam.Vec2.length, Glam.signum, vec2]
  intro h
  rw [h] at h1
  norm_num at h1

end Emath

namespace Emath

/-- C4: double inversion is exact at the matrix level: for any transform
whose linear part has non-zero determinant (equivalently, non-zero scale for
the similarity-form transforms this type produces), `inverse(inverse(T)) = T`
with exact component equality, since `inverse` works on the stored matrix. -/
theorem C4_double_inversion_exact (T : TSTransform)
    (h : T.af.matrix2.determinant ≠ 0) : T.inverse.inverse = T := by
  obtain ⟨⟨⟨⟨a, b⟩, ⟨c, d⟩⟩, ⟨tx, ty⟩⟩⟩ := T
  simp only [Glam.Mat2.determinant] at h
  have h2 : d * a - b * c ≠ 0 := by rwa [mul_comm d a]
  have hD : (Glam.Mat2.mk ⟨a, b⟩ ⟨c, d⟩).inverse.determinant = (a * d - b * c)⁻¹ := by
    simp only [Glam.Mat2.inverse, Glam.Mat2.determinant, Glam.Mat2.from_cols]
    field_simp [h, h2]
    ring
  simp only [TSTransform.inverse, Glam.Affine2.inverse, Glam.Mat2.inverse, hD,
    Glam.Mat2.determinant, Glam.Mat2.from_cols, Glam.Mat2.mul_vec2, inv_inv,
    Glam.Vec2.neg_mk, TSTransform.mk.injEq, Glam.Affine2.mk.injEq,
    Glam.Mat2.mk.injEq, Glam.Vec2.mk.injEq]
  refine ⟨⟨⟨?_, ?_⟩, ?_, ?_⟩, ?_, ?_⟩ <;> field_simp [h, h2] <;> ring_nf <;> simp

/-- Witness for C4 at `T = new((2,3), 2, 0)`. -/
theorem C4_double_inversion_witness :
    (TSTransform.new (vec2 2 3) 2 0).af.matrix2.determinant ≠ 0 ∧
    (TSTransform.new (vec2 2 3) 2 0).inverse.inverse = TSTransform.new (vec2 2 3) 2 0 := by
  have hd : (TSTransform.new (vec2 2 3) 2 0).af.matrix2.determinant ≠ 0 := by
    norm_num [TSTransform.new, Glam.Affine2.from_scale_angle_translation,
      Glam.Mat2.from_cols, Glam.Mat2.determinant, vec2]
  exact ⟨hd, C4_double_inversion_exact _ hd⟩

/-- The linear part is a uniform-scale-rotation (similarity) matrix: the two
diagonal entries are equal and the off-diagonal entries are exact negations
of each other. -/
def IsSimilarity (t : TSTransform) : Prop :=
  t.af.matrix2.x_axis.x = t.af.matrix2.y_axis.y ∧
  t.af.matrix2.y_axis.x = -t.af.matrix2.x_axis.y

/-- Transforms reachable through `IDENTITY`, `new`, `from_translation`,
`from_scaling`, `from_rotation`, composition (`Mul`), and `inverse`. -/
inductive Reachable : TSTransform → Prop
  | identity : Reachable TSTransform.IDENTITY
  | mk_new (translation : Vec2) (scaling rotation : ℝ) :
      Reachable (TSTransform.new translation scaling rotation)
  | translationOf (translation : Vec2) :
      Reachable (TSTransform.from_translation translation)
  | scalingOf (scaling : ℝ) : Reachable (TSTransform.from_scaling scaling)
  | rotationOf (rotation : ℝ) : Reachable (TSTransform.from_rotation rotation)
  | comp (a b : TSTransform) : Reachable a → Reachable b → Reachable (a.compose b)
  | inv (a : TSTransform) : Reachable a → Reachable a.inverse

/-- C5: implicit similarity-form invariant: every transform reachable
through the public constructors, composition and inversion has a linear part
with equal diagonal entries and exactly-opposite off-diagonal entries, so
composition and inversion never introduce shear or non-uniform scale. -/
theorem C5_reachable_is_similarity (T : TSTransform) (h : Reachable T) :
    IsSimilarity T := by
  induction h with
  | identity =>
      constructor <;>
        simp [TSTransform.IDENTITY, Glam.Affine2.IDENTITY, Glam.Mat2.IDENTITY,
          IsSimilarity]
  | mk_new translation scaling rotation =>
      constructor <;>
        simp [TSTransform.new, Glam.Affine2.from_scale_angle_translation,
          Glam.Mat2.from_cols]
  | translationOf translation =>
      constructor <;>
        simp [TSTransform.from_translation, Glam.Affine2.from_translation,
          Glam.Mat2.IDENTITY]
  | scalingOf scaling =>
      constructor <;>
        simp [TSTransform.from_scaling, TSTransform.new,
          Glam.Affine2.from_scale_angle_translation, Glam.Mat2.from_cols]
  | rotationOf rotation =>
      constructor <;>
        simp [TSTransform.from_rotation, TSTransform.new,
          Glam.Affine2.from_scale_angle_translation, Glam.Mat2.from_cols]
  | comp a b ha hb iha ihb =>
      obtain ⟨ia1, ia2⟩ := iha
      obtain ⟨ib1, ib2⟩ := ihb
      constructor <;>
        · simp only [TSTransform.compose, Glam.Affine2.mul, Glam.Mat2.mul_mat2,
            Glam.Mat2.mul_vec2, Glam.Mat2.from_cols]
          rw [ia1, ia2, ib1, ib2]
          ring
  | inv a ha ih =>
      obtain ⟨i1, i2⟩ := ih
      constructor <;>
        · simp only [TSTransform.inverse, Glam.Affine2.inverse, Glam.Mat2.inverse,
            Glam.Mat2.determinant, Glam.Mat2.from_cols]
          rw [i1, i2]
          try ring

/-- Witness for C5: the similarity form of `new((1,2), 3, 0)`. -/
theorem C5_reachable_is_similarity_witness :
    IsSimilarity (TSTransform.new (vec2 1 2) 3 0) :=
  C5_reachable_is_similarity _ (Reachable.mk_new (vec2 1 2) 3 0)

end Emath
